import Mathlib

/-
Shallow embedding of the badge engine of the LogLynxs backend
(module badges: normalizeBadgeId, BADGE_DEFINITIONS, badgeService.getUserBadges,
getUserBadge, unlockBadge, checkAndUnlockBadges, getUserStats, getBadgeProgress,
and the controller wrapper for getUserBadge).

Numbers are modelled as Nat (the catalog thresholds and the statistics in the
tested scenarios are non-negative integers; JavaScript Math.floor on a
non-negative quotient corresponds to Nat division). The document store is a
list of unlock records; a Firestore add is an append, a where-query is a
filter, and docs[0] of a query result is List.find?. A fetch that may throw
is an Option argument (none = the query threw and the catch branch ran).
Errors thrown with CustomError are modelled with Except.
-/

namespace LogLynx

/-- Mirror of the CustomError class of core/errorHandler.ts:
message, statusCode, code. -/
structure CustomError where
  message : String
  statusCode : Nat
  code : String
deriving Repr, DecidableEq

/-- One requirement of a badge definition: a type tag and a threshold. -/
structure Requirement where
  type : String
  value : Nat
deriving Repr, DecidableEq

/-- Mirror of the Badge interface, including the optional fields set on
returned (unlocked) badges. -/
structure Badge where
  id : String
  name : String
  description : String
  icon : String
  rarity : String
  category : String
  requirements : List Requirement
  isUnlocked : Option Bool := none
  unlockedAt : Option Nat := none
  progress : Option Nat := none
deriving Repr, DecidableEq

/-- Mirror of the UserBadge interface. -/
structure UserBadge where
  badgeId : String
  unlockedAt : Nat
  progress : Nat
deriving Repr, DecidableEq

/-- Mirror of the BadgeProgress interface. -/
structure BadgeProgress where
  badgeId : String
  current : Nat
  target : Nat
  percentage : Nat
deriving Repr, DecidableEq

/-- The statistics tuple computed by badgeService.getUserStats. -/
structure UserStats where
  totalMileage : Nat
  bikeCount : Nat
  serviceCount : Nat
  componentCount : Nat
  totalServiceCost : Nat
  daysActive : Nat
deriving Repr, DecidableEq

/-- A persisted unlock record: the fields written by unlockBadge into the
user_badges collection (uid plus the UserBadge fields). -/
structure UnlockRecord where
  uid : String
  badgeId : String
  unlockedAt : Nat
  progress : Nat
deriving Repr, DecidableEq

/-- The BADGE_ID_ALIASES table, entry for entry. -/
def BADGE_ID_ALIASES : List (String × String) :=
  [ ("first_steps", "first_ride")
  , ("first_bike", "first_ride")
  , ("km_100", "century")
  , ("hundred_km", "century")
  , ("km_500", "half_marathon")
  , ("km_1000", "marathon")
  , ("thousand_km", "marathon")
  , ("km_2000", "ultra_marathon")
  , ("distance_master", "ultra_marathon")
  , ("bike_owner", "bike_collector")
  , ("bike_collector", "bike_collector")
  , ("maintenance_master", "maintenance_master")
  , ("maintenance_expert", "maintenance_master")
  , ("component_master", "component_expert")
  , ("big_spender", "big_spender")
  , ("dedicated_rider", "dedicated_rider") ]

/-- Model of String.prototype.toLowerCase as used on badge ids: lowercase
every character (the ids are ASCII, where Char.toLower agrees with the
JavaScript function). -/
def toLowerStr (s : String) : String := String.mk (s.data.map Char.toLower)

/-- Mirror of normalizeBadgeId: lowercase the requested id, then take the
alias-table entry if there is one, else the lowercased id itself. -/
def normalizeBadgeId (requestedId : String) : String :=
  let lower := toLowerStr requestedId
  match BADGE_ID_ALIASES.lookup lower with
  | some canonical => canonical
  | none => lower

/-- The compiled-in catalog BADGE_DEFINITIONS, entry for entry. -/
def BADGE_DEFINITIONS : List Badge :=
  [ { id := "first_ride", name := "First Ride",
      description := "Complete your first ride", icon := "🚴",
      rarity := "common", category := "mileage",
      requirements := [⟨"total_mileage", 1⟩] }
  , { id := "century", name := "Century",
      description := "Ride 100 kilometers", icon := "💯",
      rarity := "common", category := "mileage",
      requirements := [⟨"total_mileage", 100⟩] }
  , { id := "half_marathon", name := "Half Marathon",
      description := "Ride 500 kilometers", icon := "🏃",
      rarity := "rare", category := "mileage",
      requirements := [⟨"total_mileage", 500⟩] }
  , { id := "marathon", name := "Marathon",
      description := "Ride 1000 kilometers", icon := "🏅",
      rarity := "rare", category := "mileage",
      requirements := [⟨"total_mileage", 1000⟩] }
  , { id := "ultra_marathon", name := "Ultra Marathon",
      description := "Ride 2000 kilometers", icon := "trophy",
      rarity := "epic", category := "mileage",
      requirements := [⟨"total_mileage", 2000⟩] }
  , { id := "bike_collector", name := "Bike Collector",
      description := "Own 3 bikes", icon := "bike",
      rarity := "common", category := "achievement",
      requirements := [⟨"bike_count", 3⟩] }
  , { id := "maintenance_master", name := "Maintenance Master",
      description := "Log 10 service records", icon := "wrench",
      rarity := "rare", category := "maintenance",
      requirements := [⟨"service_count", 10⟩] }
  , { id := "component_expert", name := "Component Expert",
      description := "Track 5 components", icon := "⚙️",
      rarity := "common", category := "achievement",
      requirements := [⟨"component_count", 5⟩] }
  , { id := "big_spender", name := "Big Spender",
      description := "Spend $500 on maintenance", icon := "💰",
      rarity := "epic", category := "maintenance",
      requirements := [⟨"service_cost", 500⟩] }
  , { id := "dedicated_rider", name := "Dedicated Rider",
      description := "Active for 30 days", icon := "📅",
      rarity := "rare", category := "achievement",
      requirements := [⟨"days_active", 30⟩] } ]

/-- One arm of the switch inside checkAndUnlockBadges: whether a single
requirement is met by the stats; the default arm of the switch returns
false for an unrecognized requirement type. -/
def reqSatisfied (stats : UserStats) (req : Requirement) : Bool :=
  if req.type == "total_mileage" then decide (stats.totalMileage ≥ req.value)
  else if req.type == "bike_count" then decide (stats.bikeCount ≥ req.value)
  else if req.type == "service_count" then decide (stats.serviceCount ≥ req.value)
  else if req.type == "component_count" then decide (stats.componentCount ≥ req.value)
  else if req.type == "service_cost" then decide (stats.totalServiceCost ≥ req.value)
  else if req.type == "days_active" then decide (stats.daysActive ≥ req.value)
  else false

/-- The shouldUnlock computation of checkAndUnlockBadges:
badgeDef.requirements.every(req => ...). -/
def shouldUnlock (stats : UserStats) (badgeDef : Badge) : Bool :=
  badgeDef.requirements.all (reqSatisfied stats)

/-- A bike document as read by getUserStats: the totalMileage field may be
absent (bike.totalMileage || 0). Other fields are irrelevant to the stats. -/
structure BikeDoc where
  totalMileage : Option Nat
deriving Repr, DecidableEq

/-- A service-log document as read by getUserStats: the cost field may be
absent (log.cost || 0). -/
structure ServiceLogDoc where
  cost : Option Nat
deriving Repr, DecidableEq

/-- Milliseconds per day, the divisor 1000*60*60*24 in getUserStats. -/
def MS_PER_DAY : Nat := 1000 * 60 * 60 * 24

/-- Mirror of badgeService.getUserStats. Each of the four fetches sits in its
own try/catch, so each is passed here as an Option: none means that query
threw and the catch branch left the default (empty list / zero). For the
users document, the inner Option is the optional createdAt value of the
account record (userData?.createdAt): the fetch succeeded but the record or
its timestamp may be missing. -/
def getUserStats (bikesFetch : Option (List BikeDoc))
    (serviceLogsFetch : Option (List ServiceLogDoc))
    (componentsFetch : Option Nat)
    (userDocFetch : Option (Option Nat))
    (now : Nat) : UserStats :=
  let bikes := bikesFetch.getD []
  let totalMileage := bikes.foldl (fun sum bike => sum + bike.totalMileage.getD 0) 0
  let bikeCount := bikes.length
  let serviceLogs := serviceLogsFetch.getD []
  let serviceCount := serviceLogs.length
  let totalServiceCost := serviceLogs.foldl (fun sum log => sum + log.cost.getD 0) 0
  let componentCount := componentsFetch.getD 0
  let daysActive :=
    match userDocFetch with
    | none => 0
    | some none => 0
    | some (some createdAt) => (now - createdAt) / MS_PER_DAY
  { totalMileage := totalMileage
  , bikeCount := bikeCount
  , serviceCount := serviceCount
  , componentCount := componentCount
  , totalServiceCost := totalServiceCost
  , daysActive := daysActive }

/-- Binary length of a natural number, with explicit fuel so that it
evaluates by structural recursion in the kernel. -/
def bitsFuel : Nat → Nat → Nat
  | 0, _ => 0
  | fuel + 1, n => if n = 0 then 0 else bitsFuel fuel (n / 2) + 1

/-- Binary length of n: the least b with n < 2 ^ b. -/
def bits (n : Nat) : Nat := bitsFuel n n

/-- Round a rational to the nearest integer, ties to even. -/
def rhe (y : ℚ) : ℤ :=
  if y - ⌊y⌋ < 1 / 2 then ⌊y⌋
  else if 1 / 2 < y - ⌊y⌋ then ⌊y⌋ + 1
  else if ⌊y⌋ % 2 = 0 then ⌊y⌋ else ⌊y⌋ + 1

/-- The binary64 exponent of a positive rational z: the e with
2 ^ (e + 52) ≤ z < 2 ^ (e + 53), found from the binary lengths of the
numerator and denominator with one comparison to correct the estimate. -/
def flExp (z : ℚ) : ℤ :=
  let d : ℤ := (bits z.num.toNat : ℤ) - (bits z.den : ℤ)
  (if z < 2 ^ d then d - 1 else d) - 52

/-- Round a nonnegative rational to the nearest IEEE-754 binary64 value
(round to nearest, ties to even), returned as the exact rational that the
double represents: the 53-bit significand is the half-even rounding of
z scaled into the binade. Exponent overflow and subnormals are not
modelled; the values reached by the badge percentages are mid-range. -/
def fl64 (z : ℚ) : ℚ :=
  if z ≤ 0 then 0
  else (rhe (z / 2 ^ flExp z) : ℚ) * 2 ^ flExp z

/-- Math.floor((current / target) * 100) as the program evaluates it in
IEEE-754 double precision: the division current / target rounds to
binary64 and so does its product with 100; the floor of the nonnegative
result is taken as a Nat. -/
def jsPercentFloor (current target : ℕ) : ℕ :=
  (⌊fl64 (fl64 ((current : ℚ) / (target : ℚ)) * 100)⌋).toNat

/-- The switch of getBadgeProgress selecting the current stat value for a
requirement type; current stays 0 when no case matches. -/
def statForType (stats : UserStats) (t : String) : Nat :=
  if t == "total_mileage" then stats.totalMileage
  else if t == "bike_count" then stats.bikeCount
  else if t == "service_count" then stats.serviceCount
  else if t == "component_count" then stats.componentCount
  else if t == "service_cost" then stats.totalServiceCost
  else if t == "days_active" then stats.daysActive
  else 0

/-- The loop body of badgeService.getBadgeProgress over a list of badge
definitions: badges without a requirement are skipped, otherwise the first
requirement gives current, target and
percentage = Math.min(100, Math.floor((current / target) * 100)). -/
def progressLoop (stats : UserStats) : List Badge → List BadgeProgress
  | [] => []
  | badgeDef :: rest =>
    match badgeDef.requirements with
    | [] => progressLoop stats rest
    | requirement :: _ =>
      let current := statForType stats requirement.type
      let percentage := min 100 (jsPercentFloor current requirement.value)
      { badgeId := badgeDef.id
      , current := current
      , target := requirement.value
      , percentage := percentage } :: progressLoop stats rest

/-- Mirror of badgeService.getBadgeProgress with the stats already computed
(the function first awaits getUserStats, then runs the loop over the
catalog). -/
def getBadgeProgress (stats : UserStats) : List BadgeProgress :=
  progressLoop stats BADGE_DEFINITIONS

/-- Mirror of badgeService.getUserBadge: normalize the id, query the
user_badges collection for (uid, normalizedId), take the first document or
return null. -/
def getUserBadge (store : List UnlockRecord) (uid badgeId : String) :
    Option UserBadge :=
  let normalizedId := normalizeBadgeId badgeId
  match store.find? (fun r => r.uid == uid && r.badgeId == normalizedId) with
  | none => none
  | some r => some { badgeId := r.badgeId, unlockedAt := r.unlockedAt, progress := r.progress }

/-- The try block of badgeService.unlockBadge: return the store unchanged
when the badge is already unlocked, throw Badge not found (404) when the
normalized id is not in the catalog, otherwise add one record with
progress 100. The Bool is the returned success flag. -/
def unlockBadgeTry (store : List UnlockRecord) (uid badgeId : String)
    (now : Nat) : Except CustomError (List UnlockRecord × Bool) :=
  let normalizedId := normalizeBadgeId badgeId
  match getUserBadge store uid normalizedId with
  | some _ => .ok (store, true)
  | none =>
    match BADGE_DEFINITIONS.find? (fun b => b.id == normalizedId) with
    | none => .error ⟨"Badge not found", 404, "BADGE_NOT_FOUND"⟩
    | some _ =>
      .ok (store ++ [{ uid := uid, badgeId := normalizedId, unlockedAt := now, progress := 100 }], true)

/-- Mirror of badgeService.unlockBadge: the catch block wraps every error
thrown inside the try block, including the Badge not found error, into
Failed to unlock badge (500, DATABASE_ERROR). -/
def unlockBadge (store : List UnlockRecord) (uid badgeId : String)
    (now : Nat) : Except CustomError (List UnlockRecord × Bool) :=
  match unlockBadgeTry store uid badgeId now with
  | .ok result => .ok result
  | .error _ => .error ⟨"Failed to unlock badge", 500, "DATABASE_ERROR"⟩

/-- The for-loop of badgeService.checkAndUnlockBadges over a list of badge
definitions, threading the store: skip a badge that already has a record,
evaluate shouldUnlock, and on success call unlockBadge and push the badge
with isUnlocked true, unlockedAt now and progress 100. -/
def checkBadgesLoop (uid : String) (stats : UserStats) (now : Nat) :
    List Badge → List UnlockRecord →
    Except CustomError (List Badge × List UnlockRecord)
  | [], store => .ok ([], store)
  | badgeDef :: rest, store =>
    if (getUserBadge store uid badgeDef.id).isSome then
      checkBadgesLoop uid stats now rest store
    else if shouldUnlock stats badgeDef then
      match unlockBadge store uid badgeDef.id now with
      | .error e => .error e
      | .ok (store1, _) =>
        match checkBadgesLoop uid stats now rest store1 with
        | .error e => .error e
        | .ok (unlocked, finalStore) =>
          .ok ({ badgeDef with
                 isUnlocked := some true
                 unlockedAt := some now
                 progress := some 100 } :: unlocked, finalStore)
    else
      checkBadgesLoop uid stats now rest store

/-- Mirror of badgeService.checkAndUnlockBadges with the stats already
computed: run the loop over the catalog; the catch block wraps any thrown
error into Failed to check badges (500, DATABASE_ERROR). -/
def checkAndUnlockBadges (uid : String) (stats : UserStats)
    (store : List UnlockRecord) (now : Nat) :
    Except CustomError (List Badge × List UnlockRecord) :=
  match checkBadgesLoop uid stats now BADGE_DEFINITIONS store with
  | .ok result => .ok result
  | .error _ => .error ⟨"Failed to check badges", 500, "DATABASE_ERROR"⟩

/-- Mirror of badgeService.getUserBadges: filter the user_badges collection
by uid, and for each document keep it only when its badgeId matches a
catalog definition, returning that definition with unlock metadata. -/
def getUserBadges (store : List UnlockRecord) (uid : String) : List Badge :=
  let docs := store.filter (fun r => r.uid == uid)
  docs.filterMap (fun doc =>
    match BADGE_DEFINITIONS.find? (fun b => b.id == doc.badgeId) with
    | none => none
    | some badgeDef =>
      some { badgeDef with
             isUnlocked := some true
             unlockedAt := some doc.unlockedAt
             progress := some doc.progress })

/-- Mirror of badgeController.getUserBadge: a null from the service becomes
a Badge not found (404) CustomError passed to the error handler. -/
def getUserBadgeController (store : List UnlockRecord) (uid badgeId : String) :
    Except CustomError UserBadge :=
  match getUserBadge store uid badgeId with
  | none => .error ⟨"Badge not found", 404, "BADGE_NOT_FOUND"⟩
  | some badge => .ok badge

instance {ε α : Type} [DecidableEq ε] [DecidableEq α] : DecidableEq (Except ε α) := fun x y =>
  match x, y with
  | .ok a, .ok b =>
    if h : a = b then .isTrue (by rw [h]) else .isFalse (by intro c; cases c; exact h rfl)
  | .error a, .error b =>
    if h : a = b then .isTrue (by rw [h]) else .isFalse (by intro c; cases c; exact h rfl)
  | .ok _, .error _ => .isFalse (by intro c; cases c)
  | .error _, .ok _ => .isFalse (by intro c; cases c)

/-- The list of canonical catalog ids. -/
def catalogIds : List String := BADGE_DEFINITIONS.map (fun b => b.id)

/-- Spec-side reading of requirement satisfaction, following the words of
the claim: a requirement is satisfied exactly when the UserStats field
matching its type is at least its value, and a requirement whose type is
not one of the six recognized types is never satisfied. -/
def ReqSatisfiedSpec (stats : UserStats) (req : Requirement) : Prop :=
  (req.type = "total_mileage" ∧ req.value ≤ stats.totalMileage) ∨
  (req.type = "bike_count" ∧ req.value ≤ stats.bikeCount) ∨
  (req.type = "service_count" ∧ req.value ≤ stats.serviceCount) ∨
  (req.type = "component_count" ∧ req.value ≤ stats.componentCount) ∨
  (req.type = "service_cost" ∧ req.value ≤ stats.totalServiceCost) ∨
  (req.type = "days_active" ∧ req.value ≤ stats.daysActive)

instance (stats : UserStats) (req : Requirement) :
    Decidable (ReqSatisfiedSpec stats req) := by
  unfold ReqSatisfiedSpec; infer_instance

/-- The two-requirement badge of the AND-semantics test case of the claim:
total_mileage at least 100 and bike_count at least 2. -/
def exampleTwoReqBadge : Badge :=
  { id := "two_req_example"
  , name := "Two Req Example"
  , description := "AND semantics test badge"
  , icon := "x"
  , rarity := "common"
  , category := "mileage"
  , requirements := [⟨"total_mileage", 100⟩, ⟨"bike_count", 2⟩] }

/-- Existence of an unlock record for a (uid, badgeId) pair in the store. -/
def hasRecord (store : List UnlockRecord) (uid badgeId : String) : Prop :=
  ∃ r ∈ store, r.uid = uid ∧ r.badgeId = badgeId

instance (store : List UnlockRecord) (uid badgeId : String) :
    Decidable (hasRecord store uid badgeId) := by
  unfold hasRecord; infer_instance

/-- The at-most-one-record-per-(uid, badgeId) invariant of the unlock
store: no two records share their (uid, badgeId) pair. -/
def dupFree (store : List UnlockRecord) : Prop :=
  store.Pairwise (fun a b => ¬(a.uid = b.uid ∧ a.badgeId = b.badgeId))

instance (store : List UnlockRecord) : Decidable (dupFree store) := by
  unfold dupFree; infer_instance

/-- The canonical-id invariant of the unlock store: every stored record
carries a canonical catalog id. -/
def storeWF (store : List UnlockRecord) : Prop :=
  ∀ r ∈ store, r.badgeId ∈ catalogIds

instance (store : List UnlockRecord) : Decidable (storeWF store) := by
  unfold storeWF; infer_instance

/-- One store-mutating call of the badge service: an evaluateAndUnlock run
(with the stats the aggregator computed and the current time) or an
explicit unlockBadge call. -/
inductive BadgeOp where
  | evaluate (stats : UserStats) (now : Nat)
  | forceUnlock (badgeId : String) (now : Nat)

/-- The store after one sequential call for the given user; when the call
throws, the store is unchanged. -/
def applyBadgeOp (uid : String) (store : List UnlockRecord) :
    BadgeOp → List UnlockRecord
  | .evaluate stats now =>
    match checkAndUnlockBadges uid stats store now with
    | .ok (_, store2) => store2
    | .error _ => store
  | .forceUnlock badgeId now =>
    match unlockBadge store uid badgeId now with
    | .ok (store2, _) => store2
    | .error _ => store

/-- The store after a sequence of sequential calls for the given user. -/
def runBadgeOps (uid : String) (store : List UnlockRecord) :
    List BadgeOp → List UnlockRecord
  | [] => store
  | op :: rest => runBadgeOps uid (applyBadgeOp uid store op) rest

/-- Every catalog id is a fixed point of normalizeBadgeId. -/
lemma catalog_norm_ids : ∀ b ∈ BADGE_DEFINITIONS, normalizeBadgeId b.id = b.id := by decide

/-- Every requirement threshold in the catalog is positive. -/
lemma catalog_req_pos : ∀ b ∈ BADGE_DEFINITIONS, ∀ req ∈ b.requirements, 0 < req.value := by
  decide

/-- The Boolean requirement check of the evaluator agrees with the
spec-side reading of requirement satisfaction. -/
lemma reqSatisfied_iff_spec (stats : UserStats) (req : Requirement) :
    reqSatisfied stats req = true ↔ ReqSatisfiedSpec stats req := by
  unfold reqSatisfied ReqSatisfiedSpec
  split_ifs with h1 h2 h3 h4 h5 h6 <;> simp_all [beq_iff_eq]

/-- The percentage value of getBadgeProgress never exceeds 100. -/
lemma min_pct_le (x : Nat) : min 100 x ≤ 100 := Nat.min_le_left _ _

/-- bitsFuel of zero is zero for any fuel. -/
lemma bitsFuel_zero (f : ℕ) : bitsFuel f 0 = 0 := by
  cases f <;> simp [bitsFuel]

/-- Any sufficient fuel computes the same binary length. -/
lemma bitsFuel_of_le (n : ℕ) : ∀ f, n ≤ f → bitsFuel f n = bits n := by
  induction n using Nat.strong_induction_on with
  | _ n ih =>
    intro f hf
    cases n with
    | zero => rw [bitsFuel_zero, bits, bitsFuel_zero]
    | succ k =>
      cases f with
      | zero => omega
      | succ g =>
        have hm : (k + 1) / 2 < k + 1 := Nat.div_lt_self (Nat.succ_pos k) one_lt_two
        rw [bits]
        show (if k + 1 = 0 then 0 else bitsFuel g ((k + 1) / 2) + 1) =
          (if k + 1 = 0 then 0 else bitsFuel k ((k + 1) / 2) + 1)
        rw [if_neg (Nat.succ_ne_zero k), if_neg (Nat.succ_ne_zero k)]
        rw [ih ((k + 1) / 2) hm g (by omega), ih ((k + 1) / 2) hm k (by omega)]

/-- The recurrence of the binary length. -/
lemma bits_succ (n : ℕ) (hn : 0 < n) : bits n = bits (n / 2) + 1 := by
  obtain ⟨k, rfl⟩ : ∃ k, n = k + 1 := ⟨n - 1, by omega⟩
  rw [bits]
  show (if k + 1 = 0 then 0 else bitsFuel k ((k + 1) / 2) + 1) = _
  rw [if_neg (Nat.succ_ne_zero k), bitsFuel_of_le ((k + 1) / 2) k (by omega)]

/-- The binary length brackets a positive number between two powers of 2. -/
lemma bits_spec : ∀ n : ℕ, 0 < n → 2 ^ (bits n - 1) ≤ n ∧ n < 2 ^ bits n := by
  intro n
  induction n using Nat.strong_induction_on with
  | _ n ih =>
    intro hn
    rcases Nat.lt_or_ge n 2 with h2 | h2
    · have hn1 : n = 1 := by omega
      subst hn1
      exact ⟨by decide, by decide⟩
    · have hm : 0 < n / 2 := by omega
      have hlt : n / 2 < n := by omega
      obtain ⟨ihl, ihr⟩ := ih (n / 2) hlt hm
      have hb : bits n = bits (n / 2) + 1 := bits_succ n hn
      have hbm : 0 < bits (n / 2) := by rw [bits_succ _ hm]; omega
      constructor
      · rw [hb, Nat.add_sub_cancel]
        have h3 : 2 ^ bits (n / 2) = 2 * 2 ^ (bits (n / 2) - 1) := by
          rw [← pow_succ']
          congr 1
          omega
        rw [h3]
        calc 2 * 2 ^ (bits (n / 2) - 1) ≤ 2 * (n / 2) := Nat.mul_le_mul_left 2 ihl
          _ ≤ n := by omega
      · rw [hb, pow_succ]
        calc n ≤ 2 * (n / 2) + 1 := by omega
          _ < 2 ^ bits (n / 2) * 2 := by omega

/-- Half-even rounding never falls below the floor. -/
lemma rhe_ge_floor (y : ℚ) : ⌊y⌋ ≤ rhe y := by
  unfold rhe; split_ifs <;> omega

/-- Half-even rounding never exceeds the floor plus one. -/
lemma rhe_le_floor_add_one (y : ℚ) : rhe y ≤ ⌊y⌋ + 1 := by
  unfold rhe; split_ifs <;> omega

/-- Half-even rounding is monotone. -/
lemma rhe_mono {a b : ℚ} (hab : a ≤ b) : rhe a ≤ rhe b := by
  rcases lt_or_eq_of_le (Int.floor_mono hab) with hf | hf
  · calc rhe a ≤ ⌊a⌋ + 1 := rhe_le_floor_add_one a
      _ ≤ ⌊b⌋ := by omega
      _ ≤ rhe b := rhe_ge_floor b
  · unfold rhe
    rw [← hf]
    split_ifs <;> first | omega | (exfalso; linarith)

/-- A value within the lower half of its integer step rounds down. -/
lemma rhe_eq_of_lt (y : ℚ) (n : ℤ) (h1 : (n : ℚ) ≤ y) (h2 : y < (n : ℚ) + 1 / 2) :
    rhe y = n := by
  have hfl : ⌊y⌋ = n := Int.floor_eq_iff.mpr ⟨h1, by linarith⟩
  unfold rhe
  rw [hfl, if_pos (by linarith : y - ((n : ℤ) : ℚ) < 1 / 2)]

/-- The exponent found by flExp brackets a positive rational inside its
binade scaled to 53 bits. -/
lemma flExp_spec (z : ℚ) (hz : 0 < z) :
    (2 : ℚ) ^ (flExp z + 52) ≤ z ∧ z < (2 : ℚ) ^ (flExp z + 53) := by
  have hnum : 0 < z.num := Rat.num_pos.mpr hz
  have hp0 : 0 < z.num.toNat := by omega
  have hq0 : 0 < z.den := z.den_pos
  obtain ⟨hpl, hpu⟩ := bits_spec z.num.toNat hp0
  obtain ⟨hql, hqu⟩ := bits_spec z.den hq0
  have hbp1 : 1 ≤ bits z.num.toNat := by rw [bits_succ _ hp0]; omega
  have hbq1 : 1 ≤ bits z.den := by rw [bits_succ _ hq0]; omega
  set bp := bits z.num.toNat with hbp
  set bq := bits z.den with hbq
  have hcast : ((z.num.toNat : ℕ) : ℚ) = (z.num : ℚ) := by
    exact_mod_cast congrArg (fun i : ℤ => (i : ℚ)) (Int.toNat_of_nonneg hnum.le)
  have hz_eq : z = (z.num.toNat : ℚ) / (z.den : ℚ) := by
    rw [hcast]; exact (Rat.num_div_den z).symm
  have hp' : (0 : ℚ) < (z.num.toNat : ℚ) := by exact_mod_cast hp0
  have hq' : (0 : ℚ) < (z.den : ℚ) := by exact_mod_cast hq0
  have natpow : ∀ k : ℕ, ((2 ^ k : ℕ) : ℚ) = (2 : ℚ) ^ (k : ℤ) := by
    intro k
    rw [zpow_natCast]
    push_cast
    rfl
  have hA : (2 : ℚ) ^ ((bp : ℤ) - 1) ≤ (z.num.toNat : ℚ) := by
    calc (2 : ℚ) ^ ((bp : ℤ) - 1) = (2 : ℚ) ^ (((bp - 1 : ℕ)) : ℤ) := by congr 1; omega
      _ = ((2 ^ (bp - 1) : ℕ) : ℚ) := (natpow _).symm
      _ ≤ _ := by exact_mod_cast hpl
  have hB : (z.num.toNat : ℚ) < (2 : ℚ) ^ (bp : ℤ) := by
    rw [← natpow]
    exact_mod_cast hpu
  have hC : (2 : ℚ) ^ ((bq : ℤ) - 1) ≤ (z.den : ℚ) := by
    calc (2 : ℚ) ^ ((bq : ℤ) - 1) = (2 : ℚ) ^ (((bq - 1 : ℕ)) : ℤ) := by congr 1; omega
      _ = ((2 ^ (bq - 1) : ℕ) : ℚ) := (natpow _).symm
      _ ≤ _ := by exact_mod_cast hql
  have hD : (z.den : ℚ) < (2 : ℚ) ^ (bq : ℤ) := by
    rw [← natpow]
    exact_mod_cast hqu
  have keyLower : (2 : ℚ) ^ ((bp : ℤ) - (bq : ℤ) - 1) < z := by
    calc (2 : ℚ) ^ ((bp : ℤ) - (bq : ℤ) - 1)
        = (2 : ℚ) ^ ((bp : ℤ) - 1) / (2 : ℚ) ^ (bq : ℤ) := by
          rw [← zpow_sub₀ (two_ne_zero : (2 : ℚ) ≠ 0)]; congr 1; ring
      _ ≤ (z.num.toNat : ℚ) / (2 : ℚ) ^ (bq : ℤ) :=
          (div_le_div_right (zpow_pos two_pos _)).mpr hA
      _ < (z.num.toNat : ℚ) / (z.den : ℚ) := div_lt_div_of_pos_left hp' hq' hD
      _ = z := hz_eq.symm
  have keyUpper : z < (2 : ℚ) ^ ((bp : ℤ) - (bq : ℤ) + 1) := by
    calc z = (z.num.toNat : ℚ) / (z.den : ℚ) := hz_eq
      _ < (2 : ℚ) ^ (bp : ℤ) / (z.den : ℚ) := (div_lt_div_right hq').mpr hB
      _ ≤ (2 : ℚ) ^ (bp : ℤ) / (2 : ℚ) ^ ((bq : ℤ) - 1) :=
          div_le_div_of_nonneg_left (by positivity) (zpow_pos two_pos _) hC
      _ = (2 : ℚ) ^ ((bp : ℤ) - (bq : ℤ) + 1) := by
          rw [← zpow_sub₀ (two_ne_zero : (2 : ℚ) ≠ 0)]; congr 1; ring
  have hfe : flExp z =
      (if z < 2 ^ ((bp : ℤ) - (bq : ℤ)) then (bp : ℤ) - (bq : ℤ) - 1
       else (bp : ℤ) - (bq : ℤ)) - 52 := rfl
  by_cases hlt : z < 2 ^ ((bp : ℤ) - (bq : ℤ))
  · have h52 : flExp z + 52 = (bp : ℤ) - (bq : ℤ) - 1 := by rw [hfe, if_pos hlt]; ring
    have h53 : flExp z + 53 = (bp : ℤ) - (bq : ℤ) := by rw [hfe, if_pos hlt]; ring
    rw [h52, h53]
    exact ⟨le_of_lt keyLower, hlt⟩
  · have h52 : flExp z + 52 = (bp : ℤ) - (bq : ℤ) := by rw [hfe, if_neg hlt]; ring
    have h53 : flExp z + 53 = (bp : ℤ) - (bq : ℤ) + 1 := by rw [hfe, if_neg hlt]; ring
    rw [h52, h53]
    exact ⟨not_lt.mp hlt, keyUpper⟩

/-- flExp is the unique exponent with this bracketing. -/
lemma flExp_eq_of (z : ℚ) (e : ℤ) (hz : 0 < z)
    (h1 : (2 : ℚ) ^ (e + 52) ≤ z) (h2 : z < (2 : ℚ) ^ (e + 53)) : flExp z = e := by
  obtain ⟨g1, g2⟩ := flExp_spec z hz
  have c1 : e ≤ flExp z := by
    have hx : (2 : ℚ) ^ (e + 52) < 2 ^ (flExp z + 53) := lt_of_le_of_lt h1 g2
    have := (zpow_lt_zpow_iff_right₀ (one_lt_two : (1 : ℚ) < 2)).mp hx
    omega
  have c2 : flExp z ≤ e := by
    have hx : (2 : ℚ) ^ (flExp z + 52) < 2 ^ (e + 53) := lt_of_le_of_lt g1 h2
    have := (zpow_lt_zpow_iff_right₀ (one_lt_two : (1 : ℚ) < 2)).mp hx
    omega
  omega

/-- The scaled value sits in the 53-bit significand range. -/
lemma flExp_scaled (z : ℚ) (hz : 0 < z) :
    (2 : ℚ) ^ (52 : ℤ) ≤ z / 2 ^ flExp z ∧ z / 2 ^ flExp z < (2 : ℚ) ^ (53 : ℤ) := by
  obtain ⟨h1, h2⟩ := flExp_spec z hz
  have hp : (0 : ℚ) < 2 ^ flExp z := zpow_pos two_pos _
  constructor
  · rw [le_div_iff hp, ← zpow_add₀ (two_ne_zero : (2 : ℚ) ≠ 0)]
    have he : (52 : ℤ) + flExp z = flExp z + 52 := by omega
    rw [he]; exact h1
  · rw [div_lt_iff hp, ← zpow_add₀ (two_ne_zero : (2 : ℚ) ≠ 0)]
    have he : (53 : ℤ) + flExp z = flExp z + 53 := by omega
    rw [he]; exact h2

/-- The rounded value is never negative. -/
lemma fl64_nonneg (z : ℚ) : 0 ≤ fl64 z := by
  rw [fl64]
  split_ifs with h
  · exact le_refl _
  · push_neg at h
    have hy : (0 : ℚ) ≤ z / 2 ^ flExp z :=
      div_nonneg h.le (le_of_lt (zpow_pos two_pos _))
    have h1 : (0 : ℤ) ≤ rhe (z / 2 ^ flExp z) :=
      le_trans (Int.floor_nonneg.mpr hy) (rhe_ge_floor _)
    have h2 : (0 : ℚ) ≤ (rhe (z / 2 ^ flExp z) : ℚ) := by exact_mod_cast h1
    exact mul_nonneg h2 (le_of_lt (zpow_pos two_pos _))

/-- Rounding to binary64 is monotone. -/
lemma fl64_mono {z1 z2 : ℚ} (h : z1 ≤ z2) : fl64 z1 ≤ fl64 z2 := by
  by_cases h1 : z1 ≤ 0
  · have he : fl64 z1 = 0 := by rw [fl64, if_pos h1]
    rw [he]
    exact fl64_nonneg z2
  · push_neg at h1
    have h2 : 0 < z2 := lt_of_lt_of_le h1 h
    obtain ⟨ha1, _⟩ := flExp_spec z1 h1
    obtain ⟨_, hb2⟩ := flExp_spec z2 h2
    obtain ⟨_, hs1u⟩ := flExp_scaled z1 h1
    obtain ⟨hs2l, _⟩ := flExp_scaled z2 h2
    have hee : flExp z1 ≤ flExp z2 := by
      have hx : (2 : ℚ) ^ (flExp z1 + 52) < 2 ^ (flExp z2 + 53) :=
        lt_of_le_of_lt (le_trans ha1 h) hb2
      have := (zpow_lt_zpow_iff_right₀ (one_lt_two : (1 : ℚ) < 2)).mp hx
      omega
    rw [fl64, if_neg (not_le.mpr h1), fl64, if_neg (not_le.mpr h2)]
    rcases eq_or_lt_of_le hee with heq | hlt
    · rw [← heq]
      have hy : z1 / 2 ^ flExp z1 ≤ z2 / 2 ^ flExp z1 :=
        (div_le_div_right (zpow_pos two_pos _)).mpr h
      have hrq : ((rhe (z1 / 2 ^ flExp z1) : ℤ) : ℚ) ≤
          ((rhe (z2 / 2 ^ flExp z1) : ℤ) : ℚ) := by exact_mod_cast rhe_mono hy
      exact mul_le_mul_of_nonneg_right hrq (le_of_lt (zpow_pos two_pos _))
    · have c53 : ((2 ^ 53 : ℤ) : ℚ) = (2 : ℚ) ^ (53 : ℤ) := by norm_num
      have c52 : ((2 ^ 52 : ℤ) : ℚ) = (2 : ℚ) ^ (52 : ℤ) := by norm_num
      have hfl53 : ⌊z1 / 2 ^ flExp z1⌋ < 2 ^ 53 :=
        Int.floor_lt.mpr (by rw [c53]; exact hs1u)
      have hrheInt : rhe (z1 / 2 ^ flExp z1) ≤ 2 ^ 53 :=
        le_trans (rhe_le_floor_add_one _) (by omega)
      have hup : (rhe (z1 / 2 ^ flExp z1) : ℚ) ≤ (2 : ℚ) ^ (53 : ℤ) := by
        rw [← c53]; exact_mod_cast hrheInt
      have hfl52 : (2 ^ 52 : ℤ) ≤ ⌊z2 / 2 ^ flExp z2⌋ :=
        Int.le_floor.mpr (by rw [c52]; exact hs2l)
      have hdown : (2 : ℚ) ^ (52 : ℤ) ≤ (rhe (z2 / 2 ^ flExp z2) : ℚ) := by
        rw [← c52]
        exact_mod_cast le_trans hfl52 (rhe_ge_floor _)
      calc (rhe (z1 / 2 ^ flExp z1) : ℚ) * 2 ^ flExp z1
          ≤ (2 : ℚ) ^ (53 : ℤ) * 2 ^ flExp z1 :=
            mul_le_mul_of_nonneg_right hup (le_of_lt (zpow_pos two_pos _))
        _ = (2 : ℚ) ^ (flExp z1 + 53) := by
            rw [← zpow_add₀ (two_ne_zero : (2 : ℚ) ≠ 0)]; congr 1; omega
        _ ≤ (2 : ℚ) ^ (flExp z2 + 52) :=
            zpow_le_zpow_right₀ (one_le_two : (1 : ℚ) ≤ 2) (by omega)
        _ = (2 : ℚ) ^ (52 : ℤ) * 2 ^ flExp z2 := by
            rw [← zpow_add₀ (two_ne_zero : (2 : ℚ) ≠ 0)]; congr 1; omega
        _ ≤ (rhe (z2 / 2 ^ flExp z2) : ℚ) * 2 ^ flExp z2 :=
            mul_le_mul_of_nonneg_right hdown (le_of_lt (zpow_pos two_pos _))

/-- Binary64 rounding fixes 1. -/
lemma fl64_one : fl64 (1 : ℚ) = 1 := by
  have he : flExp (1 : ℚ) = -52 :=
    flExp_eq_of 1 (-52) one_pos (by norm_num) (by norm_num)
  rw [fl64, if_neg (by norm_num : ¬(1 : ℚ) ≤ 0), he]
  have hy : (1 : ℚ) / 2 ^ (-52 : ℤ) = 2 ^ (52 : ℤ) := by
    rw [zpow_neg, div_inv_eq_mul, one_mul]
  rw [hy]
  have hr : rhe ((2 : ℚ) ^ (52 : ℤ)) = 2 ^ 52 := by
    apply rhe_eq_of_lt <;> · push_cast; norm_num
  rw [hr]
  push_cast
  rw [zpow_neg]
  norm_num

/-- Binary64 rounding fixes 100. -/
lemma fl64_hundred : fl64 (100 : ℚ) = 100 := by
  have he : flExp (100 : ℚ) = -46 :=
    flExp_eq_of 100 (-46) (by norm_num) (by norm_num) (by norm_num)
  rw [fl64, if_neg (by norm_num : ¬(100 : ℚ) ≤ 0), he]
  have hy : (100 : ℚ) / 2 ^ (-46 : ℤ) = 7036874417766400 := by
    rw [zpow_neg, div_inv_eq_mul]
    norm_num
  rw [hy]
  have hr : rhe ((7036874417766400 : ℚ)) = 7036874417766400 := by
    apply rhe_eq_of_lt <;> norm_num
  rw [hr]
  push_cast
  rw [zpow_neg]
  norm_num

/-- When the current value reaches a positive target, the double-precision
percentage before clamping is at least 100. -/
lemma jsPercentFloor_full {c t : ℕ} (ht : 0 < t) (hc : t ≤ c) :
    100 ≤ jsPercentFloor c t := by
  have ht' : (0 : ℚ) < (t : ℚ) := by exact_mod_cast ht
  have h0 : (1 : ℚ) ≤ (c : ℚ) / (t : ℚ) := by
    rw [le_div_iff ht', one_mul]
    exact_mod_cast hc
  have h1 : (1 : ℚ) ≤ fl64 ((c : ℚ) / (t : ℚ)) := by
    have := fl64_mono h0
    rwa [fl64_one] at this
  have h2 : (100 : ℚ) ≤ fl64 ((c : ℚ) / (t : ℚ)) * 100 := by nlinarith
  have h3 : (100 : ℚ) ≤ fl64 (fl64 ((c : ℚ) / (t : ℚ)) * 100) := by
    have := fl64_mono h2
    rwa [fl64_hundred] at this
  have h4 : (100 : ℤ) ≤ ⌊fl64 (fl64 ((c : ℚ) / (t : ℚ)) * 100)⌋ :=
    Int.le_floor.mpr (by exact_mod_cast h3)
  unfold jsPercentFloor
  omega

/-- The double-precision percentage of 29 out of 100: the division rounds
to a value just below 29/100, the product with 100 rounds to a value just
below 29, and the floor lands on 28. -/
lemma jsPercentFloor_29_100 : jsPercentFloor 29 100 = 28 := by
  have hq : ((29 : ℕ) : ℚ) / ((100 : ℕ) : ℚ) = 29 / 100 := by norm_num
  have he1 : flExp ((29 : ℚ) / 100) = -54 :=
    flExp_eq_of _ _ (by norm_num) (by norm_num) (by norm_num)
  have hy1 : ((29 : ℚ) / 100) / 2 ^ (-54 : ℤ) = 130604389193744384 / 25 := by
    rw [zpow_neg, div_inv_eq_mul]
    norm_num
  have hr1 : rhe ((130604389193744384 : ℚ) / 25) = 5224175567749775 := by
    apply rhe_eq_of_lt <;> norm_num
  have hf1 : fl64 ((29 : ℚ) / 100) = 5224175567749775 * (2 : ℚ) ^ (-54 : ℤ) := by
    rw [fl64, if_neg (by norm_num), he1, hy1, hr1]
    norm_num
  have hval : fl64 ((29 : ℚ) / 100) * 100 = 130604389193744375 / 4503599627370496 := by
    rw [hf1, zpow_neg]
    norm_num
  have he2 : flExp ((130604389193744375 : ℚ) / 4503599627370496) = -48 :=
    flExp_eq_of _ _ (by norm_num) (by norm_num) (by norm_num)
  have hy2 : ((130604389193744375 : ℚ) / 4503599627370496) / 2 ^ (-48 : ℤ) =
      130604389193744375 / 16 := by
    rw [zpow_neg, div_inv_eq_mul]
    norm_num
  have hr2 : rhe ((130604389193744375 : ℚ) / 16) = 8162774324609023 := by
    apply rhe_eq_of_lt <;> norm_num
  have hf2 : fl64 ((130604389193744375 : ℚ) / 4503599627370496) =
      8162774324609023 * (2 : ℚ) ^ (-48 : ℤ) := by
    rw [fl64, if_neg (by norm_num), he2, hy2, hr2]
    norm_num
  unfold jsPercentFloor
  rw [hq, hval, hf2]
  have hv : (8162774324609023 : ℚ) * 2 ^ (-48 : ℤ) =
      8162774324609023 / 281474976710656 := by
    rw [zpow_neg]
    norm_num
  rw [hv]
  have hfl : ⌊(8162774324609023 : ℚ) / 281474976710656⌋ = 28 :=
    Int.floor_eq_iff.mpr ⟨by norm_num, by norm_num⟩
  rw [hfl]
  rfl

/-- The progress loop is the filterMap over the badge list taking each
first requirement. -/
lemma progressLoop_eq_filterMap (stats : UserStats) (bs : List Badge) :
    progressLoop stats bs = bs.filterMap (fun badgeDef =>
      match badgeDef.requirements with
      | [] => none
      | req :: _ => some { badgeId := badgeDef.id
                         , current := statForType stats req.type
                         , target := req.value
                         , percentage := min 100 (jsPercentFloor (statForType stats req.type) req.value) }) := by
  induction bs with
  | nil => rfl
  | cons b rest ih =>
    cases hreq : b.requirements with
    | nil => simp [progressLoop, List.filterMap_cons, hreq, ih]
    | cons r rs => simp [progressLoop, List.filterMap_cons, hreq, ih]

/-- getUserBadge finds a record exactly when one exists for the uid and the
normalized id. -/
lemma getUserBadge_isSome_true_iff (store : List UnlockRecord) (uid bid : String) :
    (getUserBadge store uid bid).isSome = true ↔
      hasRecord store uid (normalizeBadgeId bid) := by
  unfold hasRecord
  simp only [getUserBadge]
  cases hf : store.find? (fun r => r.uid == uid && r.badgeId == normalizeBadgeId bid) with
  | none =>
    rw [List.find?_eq_none] at hf
    simp only [Option.isSome_none]
    constructor
    · intro h; simp at h
    · rintro ⟨r, hr, h1, h2⟩
      exact absurd (by simp [h1, h2]) (hf r hr)
  | some r =>
    have hp := List.find?_some hf
    have hm := List.mem_of_find?_eq_some hf
    simp only [Bool.and_eq_true, beq_iff_eq] at hp
    simp only [Option.isSome_some]
    exact ⟨fun _ => ⟨r, hm, hp.1, hp.2⟩, fun _ => trivial⟩

/-- A record present in the store is still present after an append. -/
lemma hasRecord_append_left {store : List UnlockRecord} (new : List UnlockRecord)
    {uid bid : String} (h : hasRecord store uid bid) :
    hasRecord (store ++ new) uid bid := by
  obtain ⟨r, hr, h1, h2⟩ := h
  exact ⟨r, List.mem_append_left _ hr, h1, h2⟩

/-- Calling unlockBadge with a catalog badge id that has no record yet
appends exactly one record with that id, the uid, the time, progress 100. -/
lemma unlockBadge_fresh {store : List UnlockRecord} {uid : String} (now : Nat)
    {b : Badge} (hb : b ∈ BADGE_DEFINITIONS)
    (hc : (getUserBadge store uid b.id).isSome = false) :
    unlockBadge store uid b.id now =
      .ok (store ++ [⟨uid, b.id, now, 100⟩], true) := by
  have hnorm : normalizeBadgeId b.id = b.id := catalog_norm_ids b hb
  have hnone : getUserBadge store uid b.id = none := by
    cases h : getUserBadge store uid b.id with
    | none => rfl
    | some v => rw [h] at hc; simp at hc
  have hfind : (BADGE_DEFINITIONS.find? (fun d => d.id == b.id)).isSome = true :=
    List.find?_isSome.mpr ⟨b, hb, by simp⟩
  obtain ⟨d, hd⟩ := Option.isSome_iff_exists.mp hfind
  simp [unlockBadge, unlockBadgeTry, hnorm, hnone, hd]

/-- One pass of the unlock loop over a list of catalog badges: it succeeds,
only appends records, every appended record belongs to the user, carries
the time, progress 100 and a catalog id, and was not present before; after
the pass every processed badge either has a record or does not qualify;
and the pass preserves the at-most-one-record invariant. -/
lemma checkBadgesLoop_spec (uid : String) (stats : UserStats) (now : Nat)
    (bs : List Badge) :
    ∀ (store : List UnlockRecord),
      (∀ b ∈ bs, b ∈ BADGE_DEFINITIONS) →
      ∃ out new,
        checkBadgesLoop uid stats now bs store = .ok (out, store ++ new)
        ∧ (∀ nr ∈ new, nr.uid = uid ∧ nr.unlockedAt = now ∧ nr.progress = 100
            ∧ nr.badgeId ∈ catalogIds ∧ ¬ hasRecord store uid nr.badgeId)
        ∧ (∀ b ∈ bs, hasRecord (store ++ new) uid b.id ∨ shouldUnlock stats b = false)
        ∧ (dupFree store → dupFree (store ++ new)) := by
  induction bs with
  | nil =>
    intro store _
    refine ⟨[], [], ?_, ?_, ?_, ?_⟩
    · simp [checkBadgesLoop]
    · intro nr hnr; simp at hnr
    · intro x hx; simp at hx
    · intro h; simpa using h
  | cons b rest ih =>
    intro store hbs
    have hb : b ∈ BADGE_DEFINITIONS := hbs b (List.mem_cons_self b rest)
    have hrest : ∀ x ∈ rest, x ∈ BADGE_DEFINITIONS :=
      fun x hx => hbs x (List.mem_cons_of_mem b hx)
    have hnormb : normalizeBadgeId b.id = b.id := catalog_norm_ids b hb
    cases hc : (getUserBadge store uid b.id).isSome with
    | true =>
      obtain ⟨out, new, heq, hnew, hall, hdup⟩ := ih store hrest
      have hrec : hasRecord store uid b.id := by
        rw [← hnormb]
        exact (getUserBadge_isSome_true_iff store uid b.id).mp hc
      refine ⟨out, new, by simp [checkBadgesLoop, hc, heq], hnew, ?_, hdup⟩
      intro x hx
      rcases List.mem_cons.mp hx with rfl | hx
      · exact Or.inl (hasRecord_append_left new hrec)
      · exact hall x hx
    | false =>
      have hnorec : ¬ hasRecord store uid b.id := by
        intro h
        have := (getUserBadge_isSome_true_iff store uid b.id).mpr (by rw [hnormb]; exact h)
        rw [hc] at this
        simp at this
      cases hs : shouldUnlock stats b with
      | false =>
        obtain ⟨out, new, heq, hnew, hall, hdup⟩ := ih store hrest
        refine ⟨out, new, by simp [checkBadgesLoop, hc, hs, heq], hnew, ?_, hdup⟩
        intro x hx
        rcases List.mem_cons.mp hx with rfl | hx
        · exact Or.inr hs
        · exact hall x hx
      | true =>
        have hunlock := unlockBadge_fresh now hb hc
        obtain ⟨out1, new1, heq1, hnew1, hall1, hdup1⟩ :=
          ih (store ++ [⟨uid, b.id, now, 100⟩]) hrest
        have hassoc : (store ++ [⟨uid, b.id, now, 100⟩]) ++ new1 =
            store ++ (⟨uid, b.id, now, 100⟩ :: new1) := by
          rw [List.append_assoc]; rfl
        refine ⟨{ b with
                  isUnlocked := some true
                  unlockedAt := some now
                  progress := some 100 } :: out1,
                (⟨uid, b.id, now, 100⟩ : UnlockRecord) :: new1, ?_, ?_, ?_, ?_⟩
        · rw [← hassoc]
          simp [checkBadgesLoop, hc, hs, hunlock, heq1]
        · intro nr hnr
          rcases List.mem_cons.mp hnr with rfl | hnr
          · exact ⟨rfl, rfl, rfl, List.mem_map.mpr ⟨b, hb, rfl⟩, hnorec⟩
          · obtain ⟨h1, h2, h3, h4, h5⟩ := hnew1 nr hnr
            refine ⟨h1, h2, h3, h4, fun h => h5 (hasRecord_append_left _ h)⟩
        · intro x hx
          rcases List.mem_cons.mp hx with rfl | hx
          · refine Or.inl ⟨⟨uid, x.id, now, 100⟩, ?_, rfl, rfl⟩
            exact List.mem_append_right _ (List.mem_cons_self _ _)
          · rw [← hassoc]
            exact hall1 x hx
        · intro hdf
          have hdf1 : dupFree (store ++ [⟨uid, b.id, now, 100⟩]) := by
            rw [dupFree, List.pairwise_append]
            refine ⟨hdf, List.pairwise_singleton _ _, ?_⟩
            intro a ha c hcmem
            rcases List.mem_singleton.mp hcmem with rfl
            rintro ⟨h1, h2⟩
            exact hnorec ⟨a, ha, h1, h2⟩
          have := hdup1 hdf1
          rw [hassoc] at this
          exact this

/-- One pass of the unlock loop is a no-op when every processed badge
already has a record or does not qualify. -/
lemma checkBadgesLoop_noop (uid : String) (stats : UserStats) (now : Nat)
    (bs : List Badge) :
    ∀ (store : List UnlockRecord),
      (∀ b ∈ bs, b ∈ BADGE_DEFINITIONS) →
      (∀ b ∈ bs, hasRecord store uid b.id ∨ shouldUnlock stats b = false) →
      checkBadgesLoop uid stats now bs store = .ok ([], store) := by
  induction bs with
  | nil => intro store _ _; simp [checkBadgesLoop]
  | cons b rest ih =>
    intro store hbs hprev
    have hb := hbs b (List.mem_cons_self b rest)
    have hrest : ∀ x ∈ rest, x ∈ BADGE_DEFINITIONS :=
      fun x hx => hbs x (List.mem_cons_of_mem b hx)
    have hprevrest : ∀ x ∈ rest, hasRecord store uid x.id ∨ shouldUnlock stats x = false :=
      fun x hx => hprev x (List.mem_cons_of_mem b hx)
    rcases hprev b (List.mem_cons_self b rest) with hrec | hsf
    · have hc : (getUserBadge store uid b.id).isSome = true := by
        rw [getUserBadge_isSome_true_iff, catalog_norm_ids b hb]
        exact hrec
      simp [checkBadgesLoop, hc, ih store hrest hprevrest]
    · cases hc : (getUserBadge store uid b.id).isSome with
      | true => simp [checkBadgesLoop, hc, ih store hrest hprevrest]
      | false => simp [checkBadgesLoop, hc, hsf, ih store hrest hprevrest]

/-- checkAndUnlockBadges always succeeds and behaves as one pass of the
loop over the catalog. -/
lemma checkAndUnlockBadges_spec (uid : String) (stats : UserStats)
    (store : List UnlockRecord) (now : Nat) :
    ∃ out new,
      checkAndUnlockBadges uid stats store now = .ok (out, store ++ new)
      ∧ (∀ nr ∈ new, nr.uid = uid ∧ nr.unlockedAt = now ∧ nr.progress = 100
          ∧ nr.badgeId ∈ catalogIds ∧ ¬ hasRecord store uid nr.badgeId)
      ∧ (∀ b ∈ BADGE_DEFINITIONS,
          hasRecord (store ++ new) uid b.id ∨ shouldUnlock stats b = false)
      ∧ (dupFree store → dupFree (store ++ new)) := by
  obtain ⟨out, new, heq, hnew, hall, hdup⟩ :=
    checkBadgesLoop_spec uid stats now BADGE_DEFINITIONS store (fun b hb => hb)
  exact ⟨out, new, by simp [checkAndUnlockBadges, heq], hnew, hall, hdup⟩

/-- A second evaluation right after a first one, with unchanged stats and
store, unlocks nothing and leaves the store unchanged. -/
lemma checkAndUnlockBadges_second (uid : String) (stats : UserStats)
    (store : List UnlockRecord) (now now2 : Nat) (out : List Badge)
    (store2 : List UnlockRecord)
    (h : checkAndUnlockBadges uid stats store now = .ok (out, store2)) :
    checkAndUnlockBadges uid stats store2 now2 = .ok ([], store2) := by
  obtain ⟨out1, new, heq, _, hall, _⟩ := checkAndUnlockBadges_spec uid stats store now
  have hpair : (out, store2) = (out1, store ++ new) := by
    injection h.symm.trans heq
  have hstore : store2 = store ++ new := congrArg Prod.snd hpair
  subst hstore
  have hloop := checkBadgesLoop_noop uid stats now2 BADGE_DEFINITIONS
    (store ++ new) (fun b hb => hb) hall
  simp [checkAndUnlockBadges, hloop]

/-- unlockBadge either leaves the store unchanged or appends exactly one
record carrying a catalog id that had no record for this uid yet. -/
lemma unlockBadge_cases {store : List UnlockRecord} {uid bid : String}
    {now : Nat} {store2 : List UnlockRecord} {flag : Bool}
    (h : unlockBadge store uid bid now = .ok (store2, flag)) :
    store2 = store ∨
    ∃ d ∈ BADGE_DEFINITIONS,
      store2 = store ++ [⟨uid, d.id, now, 100⟩] ∧ ¬ hasRecord store uid d.id := by
  cases hg : getUserBadge store uid (normalizeBadgeId bid) with
  | some v =>
    simp only [unlockBadge, unlockBadgeTry, hg] at h
    simp only [Except.ok.injEq] at h
    left
    exact (congrArg Prod.fst h.symm)
  | none =>
    simp only [unlockBadge, unlockBadgeTry, hg] at h
    cases hf : BADGE_DEFINITIONS.find? (fun b => b.id == normalizeBadgeId bid) with
    | none => rw [hf] at h; simp at h
    | some d =>
      rw [hf] at h
      simp only [Except.ok.injEq] at h
      have hid : d.id = normalizeBadgeId bid := by
        have := List.find?_some hf
        simpa [beq_iff_eq] using this
      have hd : d ∈ BADGE_DEFINITIONS := List.mem_of_find?_eq_some hf
      right
      refine ⟨d, hd, ?_, ?_⟩
      · rw [hid]
        exact (congrArg Prod.fst h.symm)
      · intro hrec
        have hnorm : normalizeBadgeId d.id = d.id := catalog_norm_ids d hd
        have : (getUserBadge store uid (normalizeBadgeId bid)).isSome = true := by
          rw [getUserBadge_isSome_true_iff, ← hid, hnorm]
          exact hrec
        rw [hg] at this
        simp at this

/-- Both store-mutating calls preserve the at-most-one-record invariant and
the canonical-id invariant of the store. -/
lemma applyBadgeOp_preserves (uid : String) (op : BadgeOp)
    (store : List UnlockRecord)
    (hd : dupFree store) (hw : storeWF store) :
    dupFree (applyBadgeOp uid store op) ∧ storeWF (applyBadgeOp uid store op) := by
  cases op with
  | evaluate stats now =>
    obtain ⟨out, new, heq, hnew, _, hdup⟩ := checkAndUnlockBadges_spec uid stats store now
    simp only [applyBadgeOp, heq]
    refine ⟨hdup hd, ?_⟩
    intro r hr
    rcases List.mem_append.mp hr with hr | hr
    · exact hw r hr
    · exact (hnew r hr).2.2.2.1
  | forceUnlock bid now =>
    cases hu : unlockBadge store uid bid now with
    | error e => simp only [applyBadgeOp, hu]; exact ⟨hd, hw⟩
    | ok p =>
      obtain ⟨store2, flag⟩ := p
      simp only [applyBadgeOp, hu]
      rcases unlockBadge_cases hu with rfl | ⟨d, hdmem, rfl, hnorec⟩
      · exact ⟨hd, hw⟩
      · constructor
        · rw [dupFree, List.pairwise_append]
          refine ⟨hd, List.pairwise_singleton _ _, ?_⟩
          intro a ha c hcmem
          rcases List.mem_singleton.mp hcmem with rfl
          rintro ⟨h1, h2⟩
          exact hnorec ⟨a, ha, h1, h2⟩
        · intro r hr
          rcases List.mem_append.mp hr with hr | hr
          · exact hw r hr
          · rcases List.mem_singleton.mp hr with rfl
            exact List.mem_map.mpr ⟨d, hdmem, rfl⟩

/-- Any sequence of sequential calls preserves both store invariants. -/
lemma runBadgeOps_preserves (uid : String) (ops : List BadgeOp) :
    ∀ (store : List UnlockRecord), dupFree store → storeWF store →
      dupFree (runBadgeOps uid store ops) ∧ storeWF (runBadgeOps uid store ops) := by
  induction ops with
  | nil => intro store hd hw; exact ⟨hd, hw⟩
  | cons op rest ih =>
    intro store hd hw
    obtain ⟨hd1, hw1⟩ := applyBadgeOp_preserves uid op store hd hw
    exact ih (applyBadgeOp uid store op) hd1 hw1

/-- Under the two store invariants, a user owns at most one record per
catalog badge, so at most as many records as the catalog has badges. -/
lemma user_count_le_catalog (uid : String) (store : List UnlockRecord)
    (hd : dupFree store) (hw : storeWF store) :
    (store.filter (fun r => r.uid == uid)).length ≤ BADGE_DEFINITIONS.length := by
  have hsub : (store.filter (fun r => r.uid == uid)).Sublist store :=
    List.filter_sublist _
  have hpl : (store.filter (fun r => r.uid == uid)).Pairwise
      (fun a b => ¬(a.uid = b.uid ∧ a.badgeId = b.badgeId)) := hd.sublist hsub
  have hids : ((store.filter (fun r => r.uid == uid)).map (fun r => r.badgeId)).Nodup := by
    have hpl2 : (store.filter (fun r => r.uid == uid)).Pairwise
        (fun a b => a.badgeId ≠ b.badgeId) := by
      refine List.Pairwise.imp_of_mem ?_ hpl
      intro a b ha hb hne heqid
      refine hne ⟨?_, heqid⟩
      have ha1 : a.uid = uid := by simpa using (List.mem_filter.mp ha).2
      have hb1 : b.uid = uid := by simpa using (List.mem_filter.mp hb).2
      rw [ha1, hb1]
    exact List.Pairwise.map (fun r : UnlockRecord => r.badgeId) (fun a b h => h) hpl2
  have hsubset : ((store.filter (fun r => r.uid == uid)).map (fun r => r.badgeId)) ⊆ catalogIds := by
    intro x hx
    obtain ⟨r, hr, rfl⟩ := List.mem_map.mp hx
    exact hw r (List.mem_of_mem_filter hr)
  calc (store.filter (fun r => r.uid == uid)).length
      = ((store.filter (fun r => r.uid == uid)).map (fun r => r.badgeId)).length :=
        (List.length_map _ _).symm
    _ = ((store.filter (fun r => r.uid == uid)).map (fun r => r.badgeId)).toFinset.card :=
        (List.toFinset_card_of_nodup hids).symm
    _ ≤ catalogIds.toFinset.card := by
        refine Finset.card_le_card ?_
        intro x hx
        rw [List.mem_toFinset] at hx ⊢
        exact hsubset hx
    _ ≤ catalogIds.length := List.toFinset_card_le _
    _ = BADGE_DEFINITIONS.length := List.length_map _ _

/-- C1: the evaluator of checkAndUnlockBadges unlocks a badge exactly when
every requirement in its list is satisfied, a requirement being satisfied
exactly when the matching UserStats field is at least its value; a
requirement of unrecognized type is never satisfied; the two-requirement
badge of the example does not qualify under stats totalMileage 150 and
bikeCount 1 and does qualify under totalMileage 150 and bikeCount 2. -/
theorem evaluator_and_semantics :
    (∀ stats badgeDef, shouldUnlock stats badgeDef = true ↔
        ∀ req ∈ badgeDef.requirements, ReqSatisfiedSpec stats req)
    ∧ (∀ stats req,
        req.type ∉ (["total_mileage", "bike_count", "service_count",
          "component_count", "service_cost", "days_active"] : List String) →
        reqSatisfied stats req = false)
    ∧ shouldUnlock ⟨150, 1, 0, 0, 0, 0⟩ exampleTwoReqBadge = false
    ∧ shouldUnlock ⟨150, 2, 0, 0, 0, 0⟩ exampleTwoReqBadge = true := by
  refine ⟨?_, ?_, by decide, by decide⟩
  · intro stats b
    unfold shouldUnlock
    rw [List.all_eq_true]
    constructor
    · intro h r hr; exact (reqSatisfied_iff_spec stats r).mp (h r hr)
    · intro h r hr; exact (reqSatisfied_iff_spec stats r).mpr (h r hr)
  · intro stats r hr
    unfold reqSatisfied
    split_ifs with h1 h2 h3 h4 h5 h6 <;> simp_all [beq_iff_eq]

/-- Witness for C1: the AND of the two requirements holds at stats
totalMileage 150, bikeCount 2, so the badge qualifies there. -/
theorem evaluator_and_semantics_witness :
    shouldUnlock ⟨150, 2, 0, 0, 0, 0⟩ exampleTwoReqBadge = true :=
  (evaluator_and_semantics.1 ⟨150, 2, 0, 0, 0, 0⟩ exampleTwoReqBadge).mpr (by decide)

/-- C3: each of the four fetches of getUserStats degrades independently: a
throwing fetch zeroes exactly its own sub-statistics and leaves every
other field at the value computed from the remaining fetches. -/
theorem computeStats_partial_failure :
    ∀ (bikes : List BikeDoc) (logs : List ServiceLogDoc) (comps : Nat)
      (userDoc : Option Nat) (now : Nat),
      getUserStats none (some logs) (some comps) (some userDoc) now =
        { getUserStats (some bikes) (some logs) (some comps) (some userDoc) now with totalMileage := 0, bikeCount := 0 }
      ∧ getUserStats (some bikes) none (some comps) (some userDoc) now =
        { getUserStats (some bikes) (some logs) (some comps) (some userDoc) now with serviceCount := 0, totalServiceCost := 0 }
      ∧ getUserStats (some bikes) (some logs) none (some userDoc) now =
        { getUserStats (some bikes) (some logs) (some comps) (some userDoc) now with componentCount := 0 }
      ∧ getUserStats (some bikes) (some logs) (some comps) none now =
        { getUserStats (some bikes) (some logs) (some comps) (some userDoc) now with daysActive := 0 } := by
  intro bikes logs comps userDoc now
  exact ⟨rfl, rfl, rfl, rfl⟩

/-- C4: with a badge id that does not resolve to a catalog entry, the try
block of unlockBadge throws Badge not found (404), but the catch block
wraps it, so the error surfaced by unlockBadge is the 500 DATABASE_ERROR;
the getUserBadge controller does surface the 404 for such an id. -/
theorem unlockBadge_wraps_notfound :
    unlockBadgeTry [] "u1" "no_such_badge" 0 =
      .error ⟨"Badge not found", 404, "BADGE_NOT_FOUND"⟩
    ∧ unlockBadge [] "u1" "no_such_badge" 0 =
      .error ⟨"Failed to unlock badge", 500, "DATABASE_ERROR"⟩
    ∧ getUserBadgeController [] "u1" "no_such_badge" =
      .error ⟨"Badge not found", 404, "BADGE_NOT_FOUND"⟩ :=
  ⟨by decide, by decide, by decide⟩

/-- The century entry of the progress list at any stats tuple: current is
the totalMileage, target 100, percentage the clamped double-precision
value. -/
lemma mem_getBadgeProgress_century (stats : UserStats) (p : ℕ)
    (hp : min 100 (jsPercentFloor stats.totalMileage 100) = p) :
    (⟨"century", stats.totalMileage, 100, p⟩ : BadgeProgress) ∈ getBadgeProgress stats := by
  unfold getBadgeProgress
  rw [progressLoop_eq_filterMap]
  refine List.mem_filterMap.mpr
    ⟨{ id := "century", name := "Century", description := "Ride 100 kilometers",
       icon := "💯", rarity := "common", category := "mileage",
       requirements := [⟨"total_mileage", 100⟩] }, by decide, ?_⟩
  show some (⟨"century", stats.totalMileage, 100,
      min 100 (jsPercentFloor stats.totalMileage 100)⟩ : BadgeProgress) = _
  rw [hp]

/-- C5 (amended): every entry of getBadgeProgress has a positive target (so
no division by zero arises), percentage equal to min 100 of the
double-precision evaluation of floor(current / target * 100), percentage
between 0 and 100, and percentage exactly 100 whenever current reaches
the target. -/
theorem badge_progress_bounds :
    ∀ stats entry, entry ∈ getBadgeProgress stats →
      0 < entry.target
      ∧ entry.percentage = min 100 (jsPercentFloor entry.current entry.target)
      ∧ 0 ≤ entry.percentage ∧ entry.percentage ≤ 100
      ∧ (entry.target ≤ entry.current → entry.percentage = 100) := by
  intro stats entry hmem
  unfold getBadgeProgress at hmem
  rw [progressLoop_eq_filterMap, List.mem_filterMap] at hmem
  obtain ⟨b, hb, heq⟩ := hmem
  cases hreq : b.requirements with
  | nil => rw [hreq] at heq; cases heq
  | cons r rs =>
    rw [hreq] at heq
    have hrv : 0 < r.value := by
      refine catalog_req_pos b hb r ?_
      rw [hreq]; exact List.mem_cons_self r rs
    obtain rfl : entry = _ := (Option.some.injEq _ _).mp heq.symm
    exact ⟨hrv, rfl, Nat.zero_le _, min_pct_le _,
      fun hc => Nat.min_eq_left (jsPercentFloor_full hrv hc)⟩

/-- Witness for C5: the century entry at stats totalMileage 100 sits in the
progress list and reports exactly 100 percent. -/
theorem badge_progress_bounds_witness :
    (⟨"century", 100, 100, 100⟩ : BadgeProgress) ∈ getBadgeProgress ⟨100, 1, 0, 0, 0, 0⟩
    ∧ (⟨"century", 100, 100, 100⟩ : BadgeProgress).percentage = 100 :=
  ⟨mem_getBadgeProgress_century ⟨100, 1, 0, 0, 0, 0⟩ 100
      (Nat.min_eq_left (jsPercentFloor_full (by norm_num) (le_refl 100))),
   (badge_progress_bounds ⟨100, 1, 0, 0, 0, 0⟩ ⟨"century", 100, 100, 100⟩
      (mem_getBadgeProgress_century ⟨100, 1, 0, 0, 0, 0⟩ 100
        (Nat.min_eq_left (jsPercentFloor_full (by norm_num) (le_refl 100))))).2.2.2.2
      (le_refl 100)⟩

/-- C5 counterexample: at stats totalMileage 29 the program computes the
century entry with percentage 28, while the formula of the claim,
min(100, floor(current * 100 / target)), gives 29 at current 29 and
target 100: the double-precision evaluation of (29 / 100) * 100 falls
just below 29 and floors to 28. -/
theorem badge_progress_formula_cex :
    (⟨"century", 29, 100, 28⟩ : BadgeProgress) ∈ getBadgeProgress ⟨29, 0, 0, 0, 0, 0⟩
    ∧ min 100 ((29 * 100) / 100 : ℕ) = 29
    ∧ (28 : ℕ) ≠ 29 :=
  ⟨mem_getBadgeProgress_century ⟨29, 0, 0, 0, 0, 0⟩ 28
      (by rw [jsPercentFloor_29_100]; decide),
   by norm_num, by norm_num⟩

/-- C6: getBadgeProgress returns exactly one entry per catalog badge with
at least one requirement, in catalog order, built from the first
requirement only: current is the stat selected by the first requirement
type, target its threshold, and percentage the clamped double-precision
value the program computes from them. -/
theorem progress_first_requirement_only :
    ∀ stats,
      getBadgeProgress stats = BADGE_DEFINITIONS.filterMap (fun badgeDef =>
        match badgeDef.requirements with
        | [] => none
        | req :: _ => some { badgeId := badgeDef.id
                           , current := statForType stats req.type
                           , target := req.value
                           , percentage := min 100 (jsPercentFloor (statForType stats req.type) req.value) })
      ∧ (getBadgeProgress stats).map (fun e => e.badgeId) =
          (BADGE_DEFINITIONS.filter (fun b => !b.requirements.isEmpty)).map (fun b => b.id) := by
  intro stats
  exact ⟨progressLoop_eq_filterMap stats BADGE_DEFINITIONS, rfl⟩

/-- C7: normalizeBadgeId sends an id whose lowercase form is an alias-table
key to the canonical id, and any other id to its lowercase form; hence
getUserBadge reads the same record for first_steps and first_ride. -/
theorem alias_normalization :
    (∀ requestedId canonical,
        BADGE_ID_ALIASES.lookup (toLowerStr requestedId) = some canonical →
        normalizeBadgeId requestedId = canonical)
    ∧ (∀ requestedId,
        BADGE_ID_ALIASES.lookup (toLowerStr requestedId) = none →
        normalizeBadgeId requestedId = toLowerStr requestedId)
    ∧ (∀ store uid, getUserBadge store uid "first_steps" = getUserBadge store uid "first_ride") := by
  refine ⟨?_, ?_, ?_⟩
  · intro s c h; simp only [normalizeBadgeId, h]
  · intro s h; simp only [normalizeBadgeId, h]
  · intro store uid
    have h : normalizeBadgeId "first_steps" = normalizeBadgeId "first_ride" := by decide
    simp only [getUserBadge, h]

/-- Witness for C7: the alias-table lookup of FIRST_STEPS succeeds and the
normalization returns first_ride. -/
theorem alias_normalization_witness :
    BADGE_ID_ALIASES.lookup (toLowerStr "FIRST_STEPS") = some "first_ride"
    ∧ normalizeBadgeId "FIRST_STEPS" = "first_ride" :=
  ⟨by decide, alias_normalization.1 "FIRST_STEPS" "first_ride" (by decide)⟩

/-- C8: on an empty store with stats totalMileage 100, bikeCount 1 and all
other statistics 0, evaluateAndUnlock unlocks exactly first_ride and
century, each returned with isUnlocked true and progress 100, and writes
exactly those two unlock records. -/
theorem scenario_first_ride_century :
    checkAndUnlockBadges "u1" ⟨100, 1, 0, 0, 0, 0⟩ [] 0 =
      .ok ( [ ⟨"first_ride", "First Ride", "Complete your first ride", "🚴", "common", "mileage",
               [⟨"total_mileage", 1⟩], some true, some 0, some 100⟩
            , ⟨"century", "Century", "Ride 100 kilometers", "💯", "common", "mileage",
               [⟨"total_mileage", 100⟩], some true, some 0, some 100⟩ ]
          , [ ⟨"u1", "first_ride", 0, 100⟩, ⟨"u1", "century", 0, 100⟩ ] ) := by
  decide

/-- C10: getUserBadges returns only records whose badgeId is a catalog id,
its result is never longer than the stored record list of the user, and a
stored record with a non-catalog badgeId is silently dropped, so the
result can be shorter than the stored list. -/
theorem getUserBadges_catalog_only :
    (∀ store uid badge, badge ∈ getUserBadges store uid → badge.id ∈ catalogIds)
    ∧ (∀ store uid,
        (getUserBadges store uid).length ≤ (store.filter (fun r => r.uid == uid)).length)
    ∧ getUserBadges [⟨"u1", "bogus", 3, 100⟩] "u1" = []
    ∧ (getUserBadges [⟨"u1", "bogus", 3, 100⟩] "u1").length <
        (([⟨"u1", "bogus", 3, 100⟩] : List UnlockRecord).filter (fun r => r.uid == "u1")).length := by
  refine ⟨?_, ?_, by decide, by decide⟩
  · intro store uid badge hmem
    simp only [getUserBadges] at hmem
    rw [List.mem_filterMap] at hmem
    obtain ⟨doc, _, heq⟩ := hmem
    cases hf : BADGE_DEFINITIONS.find? (fun b => b.id == doc.badgeId) with
    | none => rw [hf] at heq; cases heq
    | some bd =>
      rw [hf] at heq
      obtain rfl : badge = _ := (Option.some.injEq _ _).mp heq.symm
      exact List.mem_map.mpr ⟨bd, List.mem_of_find?_eq_some hf, rfl⟩
  · intro store uid
    simp only [getUserBadges]
    exact List.length_filterMap_le _ _

/-- C2: a second evaluateAndUnlock with unchanged stats and store returns
the empty list and leaves the store unchanged; any sequence of sequential
calls preserves the at-most-one-record-per-(uid, badgeId) invariant and the
canonical-id invariant, and under those invariants a user never holds more
unlock records than the catalog has badges. -/
theorem evaluate_idempotent :
    (∀ uid stats store now now2 out store2,
        checkAndUnlockBadges uid stats store now = .ok (out, store2) →
        checkAndUnlockBadges uid stats store2 now2 = .ok ([], store2))
    ∧ (∀ uid ops store,
        dupFree store → storeWF store →
        dupFree (runBadgeOps uid store ops) ∧ storeWF (runBadgeOps uid store ops)
        ∧ ((runBadgeOps uid store ops).filter (fun r => r.uid == uid)).length ≤
            BADGE_DEFINITIONS.length) := by
  constructor
  · intro uid stats store now now2 out store2 h
    exact checkAndUnlockBadges_second uid stats store now now2 out store2 h
  · intro uid ops store hd hw
    obtain ⟨hd1, hw1⟩ := runBadgeOps_preserves uid ops store hd hw
    exact ⟨hd1, hw1, user_count_le_catalog uid _ hd1 hw1⟩

/-- Witness for C2: after the first evaluation on the empty store with
stats totalMileage 100 and bikeCount 1, a second evaluation returns the
empty list; one evaluation starting from the empty store keeps both store
invariants and the count bound. -/
theorem evaluate_idempotent_witness :
    checkAndUnlockBadges "u1" ⟨100, 1, 0, 0, 0, 0⟩
        [⟨"u1", "first_ride", 0, 100⟩, ⟨"u1", "century", 0, 100⟩] 1 =
      .ok ([], [⟨"u1", "first_ride", 0, 100⟩, ⟨"u1", "century", 0, 100⟩])
    ∧ (dupFree (runBadgeOps "u1" [] [.evaluate ⟨100, 1, 0, 0, 0, 0⟩ 0])
       ∧ storeWF (runBadgeOps "u1" [] [.evaluate ⟨100, 1, 0, 0, 0, 0⟩ 0])
       ∧ ((runBadgeOps "u1" [] [.evaluate ⟨100, 1, 0, 0, 0, 0⟩ 0]).filter
            (fun r => r.uid == "u1")).length ≤ BADGE_DEFINITIONS.length) :=
  ⟨evaluate_idempotent.1 "u1" ⟨100, 1, 0, 0, 0, 0⟩ [] 0 1
      [ ⟨"first_ride", "First Ride", "Complete your first ride", "🚴", "common", "mileage",
         [⟨"total_mileage", 1⟩], some true, some 0, some 100⟩
      , ⟨"century", "Century", "Ride 100 kilometers", "💯", "common", "mileage",
         [⟨"total_mileage", 100⟩], some true, some 0, some 100⟩ ]
      [⟨"u1", "first_ride", 0, 100⟩, ⟨"u1", "century", 0, 100⟩] (by decide),
   evaluate_idempotent.2 "u1" [.evaluate ⟨100, 1, 0, 0, 0, 0⟩ 0] [] (by decide) (by decide)⟩

/-- C9: once a record exists for a (uid, badgeId) pair, a later
checkAndUnlockBadges or unlockBadge call keeps that record in the store,
never creates another record for the same pair, and every record it does
create carries progress 100. -/
theorem unlock_monotone :
    ∀ uid stats now store r, r ∈ store →
      (∀ out store2, checkAndUnlockBadges uid stats store now = .ok (out, store2) →
          r ∈ store2
          ∧ ∀ nr ∈ store2, nr ∉ store →
              ¬(nr.uid = r.uid ∧ nr.badgeId = r.badgeId) ∧ nr.progress = 100)
      ∧ (∀ bid store2 flag, unlockBadge store uid bid now = .ok (store2, flag) →
          r ∈ store2
          ∧ ∀ nr ∈ store2, nr ∉ store →
              ¬(nr.uid = r.uid ∧ nr.badgeId = r.badgeId) ∧ nr.progress = 100) := by
  intro uid stats now store r hr
  constructor
  · intro out store2 h
    obtain ⟨out1, new, heq, hnew, _, _⟩ := checkAndUnlockBadges_spec uid stats store now
    have hpair : (out, store2) = (out1, store ++ new) := by
      injection h.symm.trans heq
    have hstore : store2 = store ++ new := congrArg Prod.snd hpair
    subst hstore
    refine ⟨List.mem_append_left _ hr, ?_⟩
    intro nr hnr hnot
    have hnrnew : nr ∈ new := by
      rcases List.mem_append.mp hnr with h1 | h1
      · exact absurd h1 hnot
      · exact h1
    obtain ⟨h1, _, h3, _, h5⟩ := hnew nr hnrnew
    refine ⟨?_, h3⟩
    rintro ⟨e1, e2⟩
    exact h5 ⟨r, hr, e1.symm.trans h1, e2.symm⟩
  · intro bid store2 flag h
    rcases unlockBadge_cases h with rfl | ⟨d, hd, rfl, hnorec⟩
    · exact ⟨hr, fun nr hnr hnot => absurd hnr hnot⟩
    · refine ⟨List.mem_append_left _ hr, ?_⟩
      intro nr hnr hnot
      have hmem : nr ∈ [(⟨uid, d.id, now, 100⟩ : UnlockRecord)] := by
        rcases List.mem_append.mp hnr with h1 | h1
        · exact absurd h1 hnot
        · exact h1
      rcases List.mem_singleton.mp hmem with rfl
      refine ⟨?_, rfl⟩
      rintro ⟨e1, e2⟩
      exact hnorec ⟨r, hr, e1.symm, e2.symm⟩

/-- Witness for C9: with the century record already stored, a direct
unlockBadge call for century keeps the record and adds nothing. -/
theorem unlock_monotone_witness :
    (⟨"u1", "century", 0, 100⟩ : UnlockRecord) ∈
      ([⟨"u1", "century", 0, 100⟩] : List UnlockRecord)
    ∧ unlockBadge [⟨"u1", "century", 0, 100⟩] "u1" "century" 5 =
        .ok ([⟨"u1", "century", 0, 100⟩], true) :=
  ⟨((unlock_monotone "u1" ⟨0, 0, 0, 0, 0, 0⟩ 5 [⟨"u1", "century", 0, 100⟩]
      ⟨"u1", "century", 0, 100⟩ (by decide)).2
      "century" [⟨"u1", "century", 0, 100⟩] true (by decide)).1,
   by decide⟩

/-- Witness for C10: the century record of the user maps to the century
catalog badge, whose id is a catalog id. -/
theorem getUserBadges_catalog_only_witness :
    (⟨"century", "Century", "Ride 100 kilometers", "💯", "common", "mileage",
      [⟨"total_mileage", 100⟩], some true, some 4, some 100⟩ : Badge) ∈
        getUserBadges [⟨"u1", "century", 4, 100⟩] "u1"
    ∧ ("century" : String) ∈ catalogIds :=
  ⟨by decide,
   getUserBadges_catalog_only.1 [⟨"u1", "century", 4, 100⟩] "u1"
     ⟨"century", "Century", "Ride 100 kilometers", "💯", "common", "mileage",
      [⟨"total_mileage", 100⟩], some true, some 4, some 100⟩ (by decide)⟩

end LogLynx
